import Mathlib

/-!
Verification of the portfolio valuation and risk-metrics engine.

The definitions below are a shallow embedding of `src/portfolio.py`
(`Portfolio._calculate_metrics`, `Portfolio._calculate_recommendations`,
`Portfolio._calculate_risk_metrics`) and of the drawdown block of
`src/dashboard.py` (`render_risk_analysis_page`).  Python floats are
modelled as exact rationals (`ℚ`); values produced through `sqrt`
(volatility, Sharpe, Pearson correlation) live in `ℝ`.
-/

namespace PortfolioDash

/-- A holding as it enters `Portfolio._build_assets`: the configured code,
quantity (`shares`), the two quotes (`current_price`, `prev_week_price`,
already defaulted to `0` when the fetcher returned nothing), the currency
attached per asset class and the configured target weight. -/
structure Holding where
  code : String
  shares : ℚ
  current_price : ℚ
  prev_week_price : ℚ
  currency : String
  target_weight : ℚ
  deriving DecidableEq

/-- The `Asset` dataclass of `portfolio.py`: the input fields plus the
computed fields, which the dataclass initialises to `0.0`. -/
structure Asset where
  code : String
  shares : ℚ
  current_price : ℚ
  prev_week_price : ℚ
  currency : String
  target_weight : ℚ
  value_original : ℚ
  value_try : ℚ
  actual_weight : ℚ
  weekly_return : ℚ
  weight_deviation : ℚ
  deriving DecidableEq

/-- `Asset.is_valid`: `current_price > 0 and shares > 0` (the
`current_price is not None` conjunct is vacuous here because
`_build_assets` coerces a missing price to `0`). -/
def Asset.is_valid (a : Asset) : Bool :=
  decide (0 < a.current_price) && decide (0 < a.shares)

/-- `_build_assets`: a fresh `Asset` with all computed fields at their
dataclass defaults (`0.0`). -/
def buildAsset (h : Holding) : Asset :=
  { code := h.code, shares := h.shares, current_price := h.current_price,
    prev_week_price := h.prev_week_price, currency := h.currency,
    target_weight := h.target_weight,
    value_original := 0, value_try := 0, actual_weight := 0,
    weekly_return := 0, weight_deviation := 0 }

/-- First loop of `_calculate_metrics`, per asset: for a valid asset set
`value_original = current_price * shares`, convert USD/USDT values with the
single FX rate, and set the weekly return when `prev_week_price > 0`.
Invalid assets are left untouched. -/
def valueAsset (rate : ℚ) (a : Asset) : Asset :=
  if a.is_valid then
    let vo := a.current_price * a.shares
    let vt := if a.currency = "USD" ∨ a.currency = "USDT" then vo * rate else vo
    let wr :=
      if 0 < a.prev_week_price then
        (a.current_price - a.prev_week_price) / a.prev_week_price * 100
      else a.weekly_return
    { a with value_original := vo, value_try := vt, weekly_return := wr }
  else a

/-- The previous-week value of an asset in TRY
(`prev_week_price * shares`, FX-converted for USD/USDT), as accumulated
into `prev_total_value` by `_calculate_metrics`. -/
def prevValueTry (rate : ℚ) (a : Asset) : ℚ :=
  let pvo := a.prev_week_price * a.shares
  if a.currency = "USD" ∨ a.currency = "USDT" then pvo * rate else pvo

/-- `total_value`: sum of `value_try` over the valid assets. -/
def totalValueTry (assets : List Asset) : ℚ :=
  ((assets.filter Asset.is_valid).map Asset.value_try).sum

/-- `prev_total_value`: sum of the previous-week TRY values over the valid
assets that have a positive previous-week price. -/
def prevTotalValue (rate : ℚ) (assets : List Asset) : ℚ :=
  ((assets.filter fun a => a.is_valid && decide (0 < a.prev_week_price)).map
    (prevValueTry rate)).sum

/-- Second loop of `_calculate_metrics`: when the portfolio total is
positive, each valid asset gets `actual_weight = value_try / total * 100`
and `weight_deviation = actual_weight - target_weight`. -/
def weightAsset (total : ℚ) (a : Asset) : Asset :=
  if 0 < total ∧ a.is_valid = true then
    { a with actual_weight := a.value_try / total * 100,
             weight_deviation := a.value_try / total * 100 - a.target_weight }
  else a

/-- The aggregate output of `_calculate_metrics` (before risk metrics):
the mutated asset list, `metrics.total_value_try`, and
`metrics.weekly_return_pct`. -/
structure MetricsOut where
  assets : List Asset
  total_value_try : ℚ
  weekly_return_pct : ℚ
  deriving DecidableEq

/-- `Portfolio._calculate_metrics` on a list of assets: value every asset,
take the two totals, assign weights, and set
`weekly_return_pct = (total - prev_total) / prev_total * 100` when
`prev_total > 0` (otherwise the metric keeps its `0.0` default). -/
def calculateMetrics (assets : List Asset) (rate : ℚ) : MetricsOut :=
  let valued := assets.map (valueAsset rate)
  let total := totalValueTry valued
  let prevTotal := prevTotalValue rate valued
  { assets := valued.map (weightAsset total),
    total_value_try := total,
    weekly_return_pct :=
      if 0 < prevTotal then (total - prevTotal) / prevTotal * 100 else 0 }

/-- A refresh as `Portfolio.refresh_prices` performs it on the valuation
side: build fresh assets from the holdings, then run
`_calculate_metrics`. -/
def refreshValuation (holdings : List Holding) (rate : ℚ) : MetricsOut :=
  calculateMetrics (holdings.map buildAsset) rate

/-- Written from the spec's words (§4.2), for comparison with the code:
"Portfolio `weeklyReturnPct` = Σ over valid holdings of
`(valueInBase/portfolioTotal) × holding.weeklyReturnPct`". -/
def specWeightedWeeklyReturn (out : MetricsOut) : ℚ :=
  ((out.assets.filter Asset.is_valid).map fun a =>
    a.value_try / out.total_value_try * a.weekly_return).sum

/-- `prev_total_value` of a refresh, expressed over the holdings. -/
def prevTotalOf (holdings : List Holding) (rate : ℚ) : ℚ :=
  prevTotalValue rate ((holdings.map buildAsset).map (valueAsset rate))

/-- The prior-value-weighted average of the holdings' weekly returns,
taken over the valid holdings that have a positive prior price. -/
def priorWeightedReturn (holdings : List Holding) (rate : ℚ) : ℚ :=
  ((((holdings.map buildAsset).map (valueAsset rate)).filter fun a =>
      a.is_valid && decide (0 < a.prev_week_price)).map fun a =>
    prevValueTry rate a / prevTotalOf holdings rate * a.weekly_return).sum

/-- Holding A of the spec's weighted-return scenario: worth 700 with a
weekly return of +10% (prior price 7000/11). -/
def holdingA : Holding := ⟨"A", 1, 700, 7000 / 11, "TRY", 0⟩

/-- Holding B of the spec's weighted-return scenario: worth 300 with a
weekly return of −5% (prior price 6000/19). -/
def holdingB : Holding := ⟨"B", 1, 300, 6000 / 19, "TRY", 0⟩

/-- The engine configuration (`PortfolioConfig` of `portfolio.py`),
restricted to the numeric fields the embedded computations read; the
defaults are the dataclass defaults. -/
structure Config where
  risk_free_rate : ℚ := 35 / 100
  weekly_loss_threshold : ℚ := -4
  weekly_gain_threshold : ℚ := 7
  weight_deviation_threshold : ℚ := 5
  high_volatility_threshold : ℚ := 15
  high_correlation_threshold : ℚ := 7 / 10
  deriving DecidableEq

/-- The default configuration. -/
def cfg0 : Config := {}

/-- The advice tags `_calculate_recommendations` can put into an asset's
recommendation string (the human-readable formatting is presentation and
is not modelled). -/
inductive Advice where
  | sellThink
  | takeProfit
  | reduceW
  | increaseW
  | noData
  deriving DecidableEq

/-- `Portfolio._calculate_recommendations`, per asset: an invalid asset is
tagged `noData`; otherwise a sell suggestion when
`weekly_return ≤ weekly_loss_threshold`, else a take-profit suggestion
when `weekly_return ≥ weekly_gain_threshold`, plus a rebalance suggestion
when `|weight_deviation| ≥ weight_deviation_threshold` (a `Tut`/hold is
the empty list). -/
def recsFor (cfg : Config) (a : Asset) : List Advice :=
  if a.is_valid then
    (if a.weekly_return ≤ cfg.weekly_loss_threshold then [Advice.sellThink]
     else if cfg.weekly_gain_threshold ≤ a.weekly_return then [Advice.takeProfit]
     else []) ++
    (if cfg.weight_deviation_threshold ≤ |a.weight_deviation| then
       (if 0 < a.weight_deviation then [Advice.reduceW] else [Advice.increaseW])
     else [])
  else [Advice.noData]

/-- `Series.pct_change().dropna()`: simple returns
`close[t]/close[t-1] − 1` over consecutive closes. -/
def pctChange (closes : List ℚ) : List ℚ :=
  (closes.zip closes.tail).map fun p => p.2 / p.1 - 1

/-- The mean of a list (pandas `.mean()`). -/
def mean (l : List ℚ) : ℚ := l.sum / l.length

/-- Sample variance with `ddof = 1`, the square of pandas `.std()`. -/
def sampleVar (l : List ℚ) : ℚ :=
  ((l.map fun x => (x - mean l) ^ 2).sum) / ((l.length : ℚ) - 1)

/-- Sample covariance with `ddof = 1` (pandas `.cov()`). -/
def sampleCov (x y : List ℚ) : ℚ :=
  (((x.zip y).map fun p => (p.1 - mean x) * (p.2 - mean y)).sum) /
    ((x.length : ℚ) - 1)

/-- Pandas `.std()`: the square root of the sample variance. -/
noncomputable def stdDev (l : List ℚ) : ℝ := Real.sqrt ((sampleVar l : ℚ) : ℝ)

/-- Pearson correlation as pandas `.corr()` computes it:
`cov(x, y) / (std(x) · std(y))`. -/
noncomputable def pearson (x y : List ℚ) : ℝ :=
  ((sampleCov x y : ℚ) : ℝ) / (stdDev x * stdDev y)

/-- One row of the `all_returns` list of `_calculate_risk_metrics`: an
instrument code, its fetched 30-day close history (an empty list stands
for a missing/failed fetch), and `actual_weight / 100`. -/
structure Entry where
  code : String
  closes : List ℚ
  weight : ℚ
  deriving DecidableEq

instance : Inhabited Entry := ⟨⟨"", [], 0⟩⟩

/-- The instruments that survive the `len(hist) > 5` gate. -/
def keptOf (entries : List Entry) : List Entry :=
  entries.filter fun e => decide (5 < e.closes.length)

/-- The number of rows of `returns_df` after `dropna()`: the series share
a positional index, so the aligned matrix keeps the first
`min(len) − 1` returns of every kept instrument. -/
def alignedLen : List Entry → Nat
  | [] => 0
  | [e] => e.closes.length - 1
  | e :: f :: es => min (e.closes.length - 1) (alignedLen (f :: es))

/-- The aligned return column of instrument `i`. -/
def colOf (kept : List Entry) (m i : Nat) : List ℚ :=
  (pctChange (kept.getD i default).closes).take m

/-- The column label (instrument code) at position `i`. -/
def codeOf (kept : List Entry) (i : Nat) : String :=
  (kept.getD i default).code

/-- `weights.sum()` before normalisation. -/
def weightSum (kept : List Entry) : ℚ := (kept.map Entry.weight).sum

/-- `(returns_df * weights).sum(axis=1)` with the weights divided by
`wsum`: the portfolio daily-return series over the aligned rows. -/
def portReturns (kept : List Entry) (wsum : ℚ) (m : Nat) : List ℚ :=
  (List.range m).map fun t =>
    (kept.map fun e => e.weight / wsum * ((pctChange e.closes).getD t 0)).sum

/-- A warning appended to `metrics.warnings` (the Turkish message strings
are presentation; the payloads are modelled). -/
inductive Warn where
  | highVol (value : ℝ)
  | highCorr (code1 code2 : String) (value : ℝ)

/-- Whether a warning names exactly the unordered pair of codes `{x, y}`. -/
def Warn.namesPair : Warn → String → String → Bool
  | .highVol _, _, _ => false
  | .highCorr a b _, x, y => decide ((a = x ∧ b = y) ∨ (a = y ∧ b = x))

/-- The `high_corrs` double loop (`for i … for j in range(i+1, …)`,
embedded as a guarded scan of the full index square): every unordered
pair with `|corr| > threshold`, in loop order. -/
noncomputable def highCorrs (kept : List Entry) (m : Nat) (τ : ℚ) :
    List (String × String × ℝ) :=
  (List.range kept.length).flatMap fun i =>
    (List.range kept.length).flatMap fun j =>
      if i < j then
        if (τ : ℝ) < |pearson (colOf kept m i) (colOf kept m j)| then
          [(codeOf kept i, codeOf kept j,
            pearson (colOf kept m i) (colOf kept m j))]
        else []
      else []

/-- The strict upper triangle of the correlation matrix
(`np.triu_indices_from(…, k=1)`), row by row. -/
noncomputable def pairCorrs (kept : List Entry) (m : Nat) : List ℝ :=
  (List.range kept.length).flatMap fun i =>
    (List.range kept.length).flatMap fun j =>
      if i < j then [pearson (colOf kept m i) (colOf kept m j)] else []

/-- `diversification_score = (1 − avg_corr) * 100`. -/
noncomputable def divScore (kept : List Entry) (m : Nat) : ℝ :=
  (1 - (pairCorrs kept m).sum / ((pairCorrs kept m).length : ℝ)) * 100

/-- The risk-metric fields of `PortfolioMetrics` as one refresh of
`_calculate_risk_metrics` computes them, starting from the dataclass
defaults (`None`, `None`, `None`, `[]`). -/
structure RiskOut where
  volatility_monthly : Option ℝ
  sharpe : Option ℝ
  diversification_score : Option ℝ
  warnings : List Warn

/-- `Portfolio._calculate_risk_metrics`: gate on instruments with more
than 5 closes, bail out (all nulls) when none survive or fewer than 5
aligned rows remain, otherwise weight the aligned returns by the
normalised weights, compute monthly volatility `std × sqrt(21) × 100`
(with a high-volatility warning), the annualised Sharpe ratio when the
daily volatility is positive, and — only with at least two columns — the
correlation warnings and the diversification score. -/
noncomputable def riskMetrics (entries : List Entry) (cfg : Config) : RiskOut :=
  let kept := keptOf entries
  if kept.isEmpty then ⟨none, none, none, []⟩
  else
    let m := alignedLen kept
    if m < 5 then ⟨none, none, none, []⟩
    else
      let pr := portReturns kept (weightSum kept) m
      let dailyVol := stdDev pr
      let monthlyVol := dailyVol * Real.sqrt 21 * 100
      let warns1 : List Warn :=
        if ((cfg.high_volatility_threshold : ℚ) : ℝ) < monthlyVol then
          [Warn.highVol monthlyVol]
        else []
      let sharpeV : Option ℝ :=
        if 0 < dailyVol then
          some (((mean pr - cfg.risk_free_rate / 252 : ℚ) : ℝ) / dailyVol *
            Real.sqrt 252)
        else none
      if 1 < kept.length then
        ⟨some monthlyVol, sharpeV, some (divScore kept m),
          warns1 ++ (highCorrs kept m cfg.high_correlation_threshold).map
            fun t => Warn.highCorr t.1 t.2.1 t.2.2⟩
      else ⟨some monthlyVol, sharpeV, none, warns1⟩

/-- The full outcome of one `refresh_prices` pass: the valued and
weighted assets, the two portfolio aggregates, and the risk metrics. -/
structure Refreshed where
  assets : List Asset
  total_value_try : ℚ
  weekly_return_pct : ℚ
  risk : RiskOut

/-- The `all_returns` rows a refresh feeds into
`_calculate_risk_metrics`: one entry per valid asset, carrying its
externally fetched history and `actual_weight / 100` (an asset whose
fetch fails or returns nothing contributes an empty history and is
dropped by the `> 5` gate, as in the source). -/
def riskEntries (holdings : List Holding) (rate : ℚ)
    (hist : String → List ℚ) : List Entry :=
  ((refreshValuation holdings rate).assets.filter Asset.is_valid).map fun a =>
    ⟨a.code, hist a.code, a.actual_weight / 100⟩

/-- One refresh: `_build_assets`, `_calculate_metrics`, then
`_calculate_risk_metrics` over the valid assets' histories. -/
noncomputable def refresh (holdings : List Holding) (rate : ℚ)
    (hist : String → List ℚ) (cfg : Config) : Refreshed :=
  { assets := (refreshValuation holdings rate).assets,
    total_value_try := (refreshValuation holdings rate).total_value_try,
    weekly_return_pct := (refreshValuation holdings rate).weekly_return_pct,
    risk := riskMetrics (riskEntries holdings rate hist) cfg }

/-- An entry with identical `weight`s scaled by `c`
(for the weight-scale-invariance statement). -/
def scaleW (c : ℚ) (e : Entry) : Entry :=
  { e with weight := c * e.weight }

/-- `pd.Series(values).expanding().max()` continued below the head:
the accumulator holds the maximum seen so far. -/
def runMaxFrom (m : ℚ) : List ℚ → List ℚ
  | [] => []
  | v :: vs => max m v :: runMaxFrom (max m v) vs

/-- `pd.Series(values).expanding().max()`: the single-pass running
maximum of the snapshot values. -/
def runningMax : List ℚ → List ℚ
  | [] => []
  | v :: vs => v :: runMaxFrom v vs

/-- `drawdowns = (values − running_max) / running_max * 100` from
`render_risk_analysis_page`. -/
def drawdowns (values : List ℚ) : List ℚ :=
  List.zipWith (fun v m => (v - m) / m * 100) values (runningMax values)

/-- Modelled from the spec: the Sortino computation of Contract B
(`computeDrawdownAndRatios`) has no implementation under `src/`, so this
follows §4.3 of the spec: at least 5 snapshots are required,
period-over-period returns are taken from the snapshot values, the
downside returns are the subset `< 0`, and with no downside returns (or a
zero downside deviation) the ratio is null rather than a sentinel;
otherwise `(annualizedMeanReturn − riskFreeRateAnnual) /
annualizedDownsideStdDev` with a weekly-snapshot annualisation factor of
52. -/
noncomputable def computeSortino (values : List ℚ) (rf : ℚ) : Option ℝ :=
  if values.length < 5 then none
  else
    let rets := pctChange values
    let downside := rets.filter fun r => decide (r < 0)
    if downside.isEmpty then none
    else
      let annMean : ℝ := ((mean rets * 52 : ℚ) : ℝ)
      let downsideDev : ℝ :=
        Real.sqrt (((mean (downside.map fun r => r ^ 2) * 52 : ℚ) : ℝ))
      if downsideDev = 0 then none
      else some ((annMean - ((rf : ℚ) : ℝ)) / downsideDev)

/-- A holding whose week went −10%: quantity 1, price 100 → 90. -/
def holdingLoss : Holding := ⟨"F", 1, 90, 100, "TRY", 0⟩

/-- The USD holding of the spec's currency round-trip scenario. -/
def holdingUSD : Holding := ⟨"X", 2, 100, 0, "USD", 0⟩

/-- An instrument with six closes of alternating 1, 2 (positive return
variance) and full weight. -/
def entrySix : Entry := ⟨"A", [1, 2, 1, 2, 1, 2], 1⟩

/-- A second instrument whose closes are the first one's doubled, hence
with an identical (perfectly correlated) return series. -/
def entrySixB : Entry := ⟨"B", [2, 4, 2, 4, 2, 4], 1⟩

/-- C1 counterexample: on the exact scenario of the claim (holdings worth
700 at +10% and 300 at −5%, total 1000) the refresh produces
`weekly_return_pct = 1000/199 ≈ 5.03`, which is neither the value-weighted
average `5.5` demanded by the claim nor equal to the spec's Σ-formula,
although that formula does evaluate to `5.5` here. -/
theorem weeklyReturn_weighted_claim_fails :
    (refreshValuation [holdingA, holdingB] 35).weekly_return_pct = 1000 / 199
    ∧ specWeightedWeeklyReturn (refreshValuation [holdingA, holdingB] 35) = 11 / 2
    ∧ (refreshValuation [holdingA, holdingB] 35).weekly_return_pct ≠
        specWeightedWeeklyReturn (refreshValuation [holdingA, holdingB] 35)
    ∧ (refreshValuation [holdingA, holdingB] 35).weekly_return_pct ≠ 11 / 2 := by
  have h1 : (refreshValuation [holdingA, holdingB] 35).weekly_return_pct = 1000 / 199 := by
    norm_num [refreshValuation, calculateMetrics, totalValueTry, prevTotalValue,
      valueAsset, buildAsset, Asset.is_valid, holdingA, holdingB, prevValueTry]
    simp only [String.reduceEq, or_self, if_false]
    norm_num
  have h2 : specWeightedWeeklyReturn (refreshValuation [holdingA, holdingB] 35) = 11 / 2 := by
    norm_num [specWeightedWeeklyReturn, refreshValuation, calculateMetrics, totalValueTry,
      prevTotalValue, valueAsset, buildAsset, weightAsset, Asset.is_valid, holdingA,
      holdingB, prevValueTry]
    simp only [String.reduceEq, or_self, if_false]
    norm_num [Asset.is_valid]
  refine ⟨h1, h2, by rw [h1, h2]; norm_num, by rw [h1]; norm_num⟩

theorem valueAsset_is_valid (rate : ℚ) (a : Asset) :
    (valueAsset rate a).is_valid = a.is_valid := by
  unfold valueAsset
  split <;> rfl

theorem valueAsset_prev_week_price (rate : ℚ) (a : Asset) :
    (valueAsset rate a).prev_week_price = a.prev_week_price := by
  unfold valueAsset
  split <;> rfl

theorem valueAsset_actual_weight (rate : ℚ) (a : Asset) :
    (valueAsset rate a).actual_weight = a.actual_weight := by
  unfold valueAsset
  split <;> rfl

theorem prevValueTry_valueAsset (rate : ℚ) (a : Asset) :
    prevValueTry rate (valueAsset rate a) = prevValueTry rate a := by
  unfold valueAsset prevValueTry
  split <;> rfl

theorem weightAsset_is_valid (total : ℚ) (a : Asset) :
    (weightAsset total a).is_valid = a.is_valid := by
  unfold weightAsset
  split <;> rfl

theorem weightAsset_value_try (total : ℚ) (a : Asset) :
    (weightAsset total a).value_try = a.value_try := by
  unfold weightAsset
  split <;> rfl

theorem weightAsset_actual_weight_of (total : ℚ) (a : Asset)
    (ht : 0 < total) (ha : a.is_valid = true) :
    (weightAsset total a).actual_weight = a.value_try / total * 100 := by
  unfold weightAsset
  rw [if_pos ⟨ht, ha⟩]

/-- For a valid asset with a positive prior price, the prior TRY value
times the weekly return collapses to `100 × (value_try − prior value)` —
the algebraic heart of the period-return identity. -/
theorem prior_term (rate : ℚ) (b : Asset) (hb : b.is_valid = true)
    (hp : 0 < b.prev_week_price) :
    prevValueTry rate b * (valueAsset rate b).weekly_return =
      ((valueAsset rate b).value_try - prevValueTry rate b) * 100 := by
  have hp' : b.prev_week_price ≠ 0 := ne_of_gt hp
  by_cases hc : b.currency = "USD" ∨ b.currency = "USDT" <;>
    simp only [valueAsset, prevValueTry, hb, if_true, if_pos hp, hc, if_false] <;>
    field_simp <;> ring

/-- Summing the prior-weighted weekly-return terms over any list of assets
on which the `prior_term` identity holds gives
`(Σ value_try − Σ prior value) × 100 / P`. -/
theorem sum_prior_terms (rate P : ℚ) :
    ∀ L : List Asset,
      (∀ a ∈ L, prevValueTry rate a * a.weekly_return
          = (a.value_try - prevValueTry rate a) * 100) →
      (L.map fun a => prevValueTry rate a / P * a.weekly_return).sum =
        ((L.map Asset.value_try).sum - (L.map (prevValueTry rate)).sum) * 100 / P
  | [], _ => by simp
  | a :: L, h => by
    have ha := h a (List.mem_cons_self a L)
    have ih := sum_prior_terms rate P L fun b hb => h b (List.mem_cons_of_mem a hb)
    simp only [List.map_cons, List.sum_cons]
    rw [div_mul_eq_mul_div, ha, ih, div_add_div_same]
    ring

/-- C1 (amended): when the prior total is positive, the portfolio
`weekly_return_pct` of a refresh equals
`(totalNow − totalPrior) / totalPrior × 100`; and when additionally every
valid holding has a positive prior price, this equals the
**prior**-value-weighted average of the holdings' weekly returns (not the
current-value-weighted average the spec states). -/
theorem weeklyReturn_period_formula (holdings : List Holding) (rate : ℚ)
    (hP : 0 < prevTotalOf holdings rate)
    (hall : ∀ a ∈ (holdings.map buildAsset).map (valueAsset rate),
      a.is_valid = true → 0 < a.prev_week_price) :
    (refreshValuation holdings rate).weekly_return_pct =
      ((refreshValuation holdings rate).total_value_try - prevTotalOf holdings rate) /
        prevTotalOf holdings rate * 100
    ∧ (refreshValuation holdings rate).weekly_return_pct =
        priorWeightedReturn holdings rate := by
  have hfirst : (refreshValuation holdings rate).weekly_return_pct =
      ((refreshValuation holdings rate).total_value_try - prevTotalOf holdings rate) /
        prevTotalOf holdings rate * 100 := by
    simp only [refreshValuation, calculateMetrics, prevTotalOf] at hP ⊢
    rw [if_pos hP]
  refine ⟨hfirst, ?_⟩
  set valued := (holdings.map buildAsset).map (valueAsset rate) with hv
  set P := prevTotalOf holdings rate with hPdef
  have hLmem : ∀ a ∈ valued.filter
      (fun a => a.is_valid && decide (0 < a.prev_week_price)),
      prevValueTry rate a * a.weekly_return
        = (a.value_try - prevValueTry rate a) * 100 := by
    intro a hmem
    have h1 := (List.mem_filter.mp hmem).1
    have h2 := (List.mem_filter.mp hmem).2
    rw [Bool.and_eq_true, decide_eq_true_eq] at h2
    rw [hv, List.mem_map] at h1
    obtain ⟨b, _hb, rfl⟩ := h1
    have hbv : b.is_valid = true := by
      rw [← valueAsset_is_valid rate b]; exact h2.1
    have hbp : 0 < b.prev_week_price := by
      rw [← valueAsset_prev_week_price rate b]; exact h2.2
    rw [prevValueTry_valueAsset]
    exact prior_term rate b hbv hbp
  have hsum := sum_prior_terms rate P
    (valued.filter (fun a => a.is_valid && decide (0 < a.prev_week_price))) hLmem
  have hfilter : valued.filter
        (fun a => a.is_valid && decide (0 < a.prev_week_price)) =
      valued.filter Asset.is_valid := by
    apply List.filter_congr
    intro a hmem
    cases hva : a.is_valid with
    | false => simp
    | true =>
      have := hall a hmem hva
      simp [this]
  have hPsum : ((valued.filter
        (fun a => a.is_valid && decide (0 < a.prev_week_price))).map
          (prevValueTry rate)).sum = P := rfl
  have hTsum : ((valued.filter
        (fun a => a.is_valid && decide (0 < a.prev_week_price))).map
          Asset.value_try).sum = totalValueTry valued := by
    rw [hfilter]; rfl
  rw [hfirst]
  unfold priorWeightedReturn
  rw [← hv, ← hPdef, hsum, hPsum, hTsum]
  have : (refreshValuation holdings rate).total_value_try = totalValueTry valued := rfl
  rw [this, div_mul_eq_mul_div]

/-- C1 witness: the amended statement instantiated on the spec's own
700/300 scenario, where the period-return value is `1000/199`. -/
theorem weeklyReturn_period_formula_witness :
    (refreshValuation [holdingA, holdingB] 35).weekly_return_pct =
      ((refreshValuation [holdingA, holdingB] 35).total_value_try -
          prevTotalOf [holdingA, holdingB] 35) /
        prevTotalOf [holdingA, holdingB] 35 * 100
    ∧ (refreshValuation [holdingA, holdingB] 35).weekly_return_pct =
        priorWeightedReturn [holdingA, holdingB] 35 := by
  apply weeklyReturn_period_formula
  · show 0 < prevTotalOf [holdingA, holdingB] 35
    norm_num [prevTotalOf, prevTotalValue, valueAsset, buildAsset, Asset.is_valid,
      holdingA, holdingB, prevValueTry]
    simp only [String.reduceEq, or_self, if_false]
    norm_num
  · intro a hmem
    simp only [holdingA, holdingB, buildAsset, List.map_cons, List.map_nil,
      List.mem_cons, List.not_mem_nil, or_false] at hmem
    rcases hmem with rfl | rfl <;>
      (intro _; rw [valueAsset_prev_week_price]; norm_num)

/-- C2: after a refresh, if the portfolio total is positive the
`actual_weight` values of the valid assets sum to exactly `100`, and if
the total is `0` every asset's `actual_weight` is `0`. -/
theorem weights_sum_100 (holdings : List Holding) (rate : ℚ) :
    (0 < (refreshValuation holdings rate).total_value_try →
      (((refreshValuation holdings rate).assets.filter Asset.is_valid).map
        Asset.actual_weight).sum = 100)
    ∧ ((refreshValuation holdings rate).total_value_try = 0 →
      ∀ a ∈ (refreshValuation holdings rate).assets, a.actual_weight = 0) := by
  set valued := (holdings.map buildAsset).map (valueAsset rate) with hv
  set T := totalValueTry valued with hT
  have hassets : (refreshValuation holdings rate).assets =
      valued.map (weightAsset T) := rfl
  have htot : (refreshValuation holdings rate).total_value_try = T := rfl
  constructor
  · intro hTpos
    rw [htot] at hTpos
    rw [hassets, List.filter_map]
    have hpred : valued.filter ((fun a => a.is_valid) ∘ weightAsset T) =
        valued.filter Asset.is_valid := by
      apply List.filter_congr
      intro a _
      simp [Function.comp, weightAsset_is_valid]
    rw [hpred, List.map_map]
    have hw : (valued.filter Asset.is_valid).map
          (Asset.actual_weight ∘ weightAsset T) =
        (valued.filter Asset.is_valid).map fun a => a.value_try * (100 / T) := by
      apply List.map_congr_left
      intro a hmem
      have hvalid := (List.mem_filter.mp hmem).2
      simp only [Function.comp]
      rw [weightAsset_actual_weight_of T a hTpos hvalid]
      rw [div_mul_eq_mul_div, mul_div_assoc]
    rw [hw, List.sum_map_mul_right]
    have : ((valued.filter Asset.is_valid).map Asset.value_try).sum = T := rfl
    rw [this]
    field_simp
  · intro hT0 a hmem
    rw [htot] at hT0
    rw [hassets, List.mem_map] at hmem
    obtain ⟨b, hb, rfl⟩ := hmem
    have hwa : weightAsset T b = b := by
      unfold weightAsset
      rw [if_neg]
      rw [hT0]
      rintro ⟨h0, -⟩
      exact lt_irrefl 0 h0
    rw [hwa]
    rw [hv, List.mem_map] at hb
    obtain ⟨c, hc, rfl⟩ := hb
    rw [valueAsset_actual_weight]
    rw [List.mem_map] at hc
    obtain ⟨h, -, rfl⟩ := hc
    rfl

/-- C2 witness: on the 700/300 portfolio the total is positive and the
valid weights sum to exactly 100. -/
theorem weights_sum_100_witness :
    (((refreshValuation [holdingA, holdingB] 35).assets.filter Asset.is_valid).map
      Asset.actual_weight).sum = 100 := by
  apply (weights_sum_100 [holdingA, holdingB] 35).1
  show 0 < totalValueTry ((([holdingA, holdingB].map buildAsset)).map (valueAsset 35))
  norm_num [totalValueTry, valueAsset, buildAsset, Asset.is_valid, holdingA, holdingB]
  simp only [String.reduceEq, or_self, if_false]
  norm_num

theorem valueAsset_value_try_of_valid (rate : ℚ) (a : Asset) (ha : a.is_valid = true) :
    (valueAsset rate a).value_try =
      if a.currency = "USD" ∨ a.currency = "USDT" then a.current_price * a.shares * rate
      else a.current_price * a.shares := by
  simp only [valueAsset, ha, if_true]

/-- C9: for a valid holding, `value_try` is `quantity × price` for a
base-currency (TRY) holding and `quantity × price × fxRate` for a
USD/USDT holding — the one FX rate applied uniformly. -/
theorem valueInBase_currency (h : Holding) (rate : ℚ)
    (hvalid : (buildAsset h).is_valid = true) :
    (h.currency = "TRY" →
      (valueAsset rate (buildAsset h)).value_try = h.shares * h.current_price)
    ∧ ((h.currency = "USD" ∨ h.currency = "USDT") →
      (valueAsset rate (buildAsset h)).value_try = h.shares * h.current_price * rate) := by
  have hv := valueAsset_value_try_of_valid rate (buildAsset h) hvalid
  have hcur : (buildAsset h).currency = h.currency := rfl
  have hcp : (buildAsset h).current_price = h.current_price := rfl
  have hsh : (buildAsset h).shares = h.shares := rfl
  rw [hcur, hcp, hsh] at hv
  constructor
  · intro hTRY
    rw [hv, if_neg]
    · ring
    · rw [hTRY]
      rintro (h1 | h1) <;> simp at h1
  · intro hUSD
    rw [hv, if_pos hUSD]
    ring

/-- C9 witness: the spec's currency round-trip — `currency = USD`,
`fxRate = 35`, `quantity = 2`, `currentPrice = 100` values at `7000`. -/
theorem valueInBase_currency_witness :
    (valueAsset 35 (buildAsset holdingUSD)).value_try = 7000 := by
  have hvalid : (buildAsset holdingUSD).is_valid = true := by
    norm_num [buildAsset, holdingUSD, Asset.is_valid]
  have h := (valueInBase_currency holdingUSD 35 hvalid).2 (Or.inl rfl)
  rw [h]
  norm_num [holdingUSD]

theorem runMaxFrom_length (l : List ℚ) :
    ∀ m : ℚ, (runMaxFrom m l).length = l.length := by
  induction l with
  | nil => intro m; rfl
  | cons v vs ih =>
    intro m
    simp only [runMaxFrom, List.length_cons, ih (max m v)]

theorem runMaxFrom_getD (l : List ℚ) :
    ∀ (m : ℚ) (i : Nat), i < l.length →
      (runMaxFrom m l).getD i 0 = (l.take (i + 1)).foldl max m := by
  induction l with
  | nil => intro m i hi; simp at hi
  | cons v vs ih =>
    intro m i hi
    cases i with
    | zero => simp [runMaxFrom]
    | succ i =>
      simp only [runMaxFrom, List.getD_cons_succ, List.take_succ_cons, List.foldl_cons]
      exact ih (max m v) i (by simpa using hi)

theorem runningMax_getD (v : ℚ) (vs : List ℚ) (i : Nat)
    (hi : i < (v :: vs).length) :
    (runningMax (v :: vs)).getD i 0 = ((v :: vs).take (i + 1)).foldl max v := by
  cases i with
  | zero => simp [runningMax]
  | succ i =>
    simp only [runningMax, List.getD_cons_succ, List.take_succ_cons,
      List.foldl_cons, max_self]
    exact runMaxFrom_getD vs v i (by simpa using hi)

theorem foldl_max_mem (l : List ℚ) :
    ∀ m : ℚ, l.foldl max m = m ∨ l.foldl max m ∈ l := by
  induction l with
  | nil => intro m; left; rfl
  | cons a l ih =>
    intro m
    rw [List.foldl_cons]
    rcases ih (max m a) with h | h
    · rw [h]
      rcases le_total m a with hle | hle
      · right
        rw [max_eq_right hle]
        exact List.mem_cons_self a l
      · left; exact max_eq_left hle
    · right; right; exact h

theorem le_foldl_max_init (l : List ℚ) : ∀ m : ℚ, m ≤ l.foldl max m := by
  induction l with
  | nil => intro m; exact le_refl m
  | cons a l ih =>
    intro m
    rw [List.foldl_cons]
    exact le_trans (le_max_left m a) (ih (max m a))

theorem le_foldl_max_mem (l : List ℚ) :
    ∀ (m : ℚ) (x : ℚ), x ∈ l → x ≤ l.foldl max m := by
  induction l with
  | nil => intro m x hx; simp at hx
  | cons a l ih =>
    intro m x hx
    rw [List.foldl_cons]
    rcases List.mem_cons.mp hx with rfl | hx
    · exact le_trans (le_max_right m x) (le_foldl_max_init l (max m x))
    · exact ih (max m a) x hx

theorem zipWith_getD (f : ℚ → ℚ → ℚ) :
    ∀ (l1 l2 : List ℚ) (i : Nat), i < l1.length → i < l2.length →
      (List.zipWith f l1 l2).getD i 0 = f (l1.getD i 0) (l2.getD i 0)
  | [], _, i, h1, _ => by simp at h1
  | _ :: _, [], i, _, h2 => by simp at h2
  | a :: l1, b :: l2, 0, _, _ => by simp
  | a :: l1, b :: l2, i + 1, h1, h2 => by
    simp only [List.zipWith_cons_cons, List.getD_cons_succ]
    exact zipWith_getD f l1 l2 i (by simpa using h1) (by simpa using h2)

/-- C4: for positive snapshot values, the running maximum at index `i` is
the maximum of the first `i + 1` values (single-pass expanding maximum),
every `drawdownPct[i]` is `≤ 0`, and it is `0` exactly when `value[i]`
equals the running maximum. -/
theorem drawdown_invariants (values : List ℚ) (hlen : 2 ≤ values.length)
    (hpos : ∀ v ∈ values, 0 < v) (i : Nat) (hi : i < values.length) :
    ((runningMax values).getD i 0 ∈ values.take (i + 1)
      ∧ ∀ x ∈ values.take (i + 1), x ≤ (runningMax values).getD i 0)
    ∧ (drawdowns values).getD i 0 ≤ 0
    ∧ ((drawdowns values).getD i 0 = 0 ↔
        values.getD i 0 = (runningMax values).getD i 0) := by
  obtain ⟨v, vs, rfl⟩ : ∃ v vs, values = v :: vs := by
    cases values with
    | nil => simp at hi
    | cons v vs => exact ⟨v, vs, rfl⟩
  have hrmlen : (runningMax (v :: vs)).length = (v :: vs).length := by
    simp [runningMax, runMaxFrom_length]

  have hrm := runningMax_getD v vs i hi
  have hvmem : v ∈ (v :: vs).take (i + 1) := by
    rw [List.take_succ_cons]
    exact List.mem_cons_self v _
  have hmem : (runningMax (v :: vs)).getD i 0 ∈ (v :: vs).take (i + 1) := by
    rw [hrm]
    rcases foldl_max_mem ((v :: vs).take (i + 1)) v with h | h
    · rw [h]; exact hvmem
    · exact h
  have hub : ∀ x ∈ (v :: vs).take (i + 1), x ≤ (runningMax (v :: vs)).getD i 0 := by
    intro x hx
    rw [hrm]
    exact le_foldl_max_mem _ v x hx
  have hivmem : (v :: vs).getD i 0 ∈ (v :: vs).take (i + 1) := by
    have h1 : i < ((v :: vs).take (i + 1)).length := by
      rw [List.length_take]
      omega
    have h2 : ((v :: vs).take (i + 1)).getD i 0 = (v :: vs).getD i 0 := by
      rw [List.getD_eq_getElem _ _ h1, List.getD_eq_getElem _ _ hi]
      exact List.getElem_take _
    rw [← h2]
    rw [List.getD_eq_getElem _ _ h1]
    exact List.getElem_mem _
  have hle : (v :: vs).getD i 0 ≤ (runningMax (v :: vs)).getD i 0 :=
    hub _ hivmem
  have hrmpos : 0 < (runningMax (v :: vs)).getD i 0 :=
    hpos _ (List.mem_of_mem_take hmem)
  have hdd : (drawdowns (v :: vs)).getD i 0 =
      ((v :: vs).getD i 0 - (runningMax (v :: vs)).getD i 0) /
        (runningMax (v :: vs)).getD i 0 * 100 := by
    unfold drawdowns
    exact zipWith_getD _ _ _ i hi (by rw [hrmlen]; exact hi)
  refine ⟨⟨hmem, hub⟩, ?_, ?_⟩
  · rw [hdd]
    have h1 : ((v :: vs).getD i 0 - (runningMax (v :: vs)).getD i 0) /
        (runningMax (v :: vs)).getD i 0 ≤ 0 :=
      div_nonpos_iff.mpr (Or.inr ⟨sub_nonpos.mpr hle, hrmpos.le⟩)
    linarith
  · rw [hdd]
    have hrm0 : (runningMax (v :: vs)).getD i 0 ≠ 0 := ne_of_gt hrmpos
    constructor
    · intro h
      rcases mul_eq_zero.mp h with h' | h'
      · rcases div_eq_zero_iff.mp h' with h'' | h''
        · exact sub_eq_zero.mp h''
        · exact absurd h'' hrm0
      · norm_num at h'
    · intro h
      rw [h, sub_self, zero_div, zero_mul]

/-- C4 witness: the invariants instantiated on the snapshot values
`[10, 5, 12]` at index `1` (a strict drawdown point). -/
theorem drawdown_invariants_witness :
    ((runningMax [10, 5, 12]).getD 1 0 ∈ ([10, 5, 12] : List ℚ).take 2
      ∧ ∀ x ∈ ([10, 5, 12] : List ℚ).take 2, x ≤ (runningMax [10, 5, 12]).getD 1 0)
    ∧ (drawdowns [10, 5, 12]).getD 1 0 ≤ 0
    ∧ ((drawdowns [10, 5, 12]).getD 1 0 = 0 ↔
        ([10, 5, 12] : List ℚ).getD 1 0 = (runningMax [10, 5, 12]).getD 1 0) := by
  have h := drawdown_invariants [10, 5, 12] (by norm_num) ?_ 1 (by norm_num)
  · exact h
  · intro v hv
    rcases List.mem_cons.mp hv with rfl | hv
    · norm_num
    · rcases List.mem_cons.mp hv with rfl | hv
      · norm_num
      · rcases List.mem_cons.mp hv with rfl | hv
        · norm_num
        · simp at hv

/-- C6: with at least five snapshots whose values are positive and
strictly increase every period, the Sortino computation returns null
(no downside returns exist), with no division by zero. -/
theorem sortino_null_of_increasing (values : List ℚ) (rf : ℚ)
    (h5 : 5 ≤ values.length) (hpos : ∀ v ∈ values, 0 < v)
    (hinc : ∀ p ∈ values.zip values.tail, p.1 < p.2) :
    computeSortino values rf = none := by
  have hempty : (pctChange values).filter (fun r => decide (r < 0)) = [] := by
    rw [List.filter_eq_nil_iff]
    intro r hr
    rw [pctChange, List.mem_map] at hr
    obtain ⟨⟨p1, p2⟩, hp, rfl⟩ := hr
    have h1 := hinc _ hp
    have h2 : 0 < p1 := hpos p1 (List.of_mem_zip hp).1
    have h3 : 1 < p2 / p1 := (one_lt_div h2).mpr h1
    simp only [decide_eq_true_eq, not_lt]
    linarith
  simp only [computeSortino, hempty, List.isEmpty_nil, if_true]
  rw [if_neg (by omega)]

/-- C6 witness: the strictly increasing snapshot series `[1, 2, 3, 4, 5]`
yields a null Sortino ratio. -/
theorem sortino_null_of_increasing_witness :
    computeSortino [1, 2, 3, 4, 5] (35 / 100) = none := by
  apply sortino_null_of_increasing
  · norm_num
  · intro v hv
    simp only [List.mem_cons, List.not_mem_nil, or_false] at hv
    rcases hv with rfl | rfl | rfl | rfl | rfl <;> norm_num
  · intro p hp
    simp only [List.tail_cons, List.zip_cons_cons, List.zip_nil_right,
      List.mem_cons, List.not_mem_nil, or_false] at hp
    rcases hp with rfl | rfl | rfl | rfl <;> norm_num

theorem keptOf_closes (entries : List Entry) :
    ∀ e ∈ keptOf entries, 5 < e.closes.length := by
  intro e he
  have := (List.mem_filter.mp he).2
  simpa using this

theorem alignedLen_ge :
    ∀ kept : List Entry, kept ≠ [] →
      (∀ e ∈ kept, 5 < e.closes.length) → 5 ≤ alignedLen kept
  | [], h, _ => absurd rfl h
  | [e], _, hall => by
    have := hall e (List.mem_cons_self e [])
    simp only [alignedLen]
    omega
  | e :: f :: es, _, hall => by
    have h1 := hall e (List.mem_cons_self e _)
    have h2 := alignedLen_ge (f :: es) (List.cons_ne_nil f es)
      fun x hx => hall x (List.mem_cons_of_mem e hx)
    simp only [alignedLen]
    omega

theorem riskMetrics_empty (entries : List Entry) (cfg : Config)
    (h : keptOf entries = []) :
    riskMetrics entries cfg = ⟨none, none, none, []⟩ := by
  simp only [riskMetrics, h, List.isEmpty_nil, if_true]

theorem riskMetrics_vol (entries : List Entry) (cfg : Config)
    (h : keptOf entries ≠ []) :
    (riskMetrics entries cfg).volatility_monthly =
      some (stdDev (portReturns (keptOf entries) (weightSum (keptOf entries))
          (alignedLen (keptOf entries))) * Real.sqrt 21 * 100) := by
  have h5 : ¬ alignedLen (keptOf entries) < 5 := by
    have := alignedLen_ge (keptOf entries) h (keptOf_closes entries)
    omega
  have hne : ¬ (keptOf entries).isEmpty = true := by
    simpa [List.isEmpty_iff] using h
  simp only [riskMetrics, if_neg hne, if_neg h5]
  split <;> rfl

theorem riskMetrics_sharpe (entries : List Entry) (cfg : Config)
    (h : keptOf entries ≠ []) :
    (riskMetrics entries cfg).sharpe =
      if 0 < stdDev (portReturns (keptOf entries) (weightSum (keptOf entries))
          (alignedLen (keptOf entries))) then
        some (((mean (portReturns (keptOf entries) (weightSum (keptOf entries))
              (alignedLen (keptOf entries))) - cfg.risk_free_rate / 252 : ℚ) : ℝ) /
          stdDev (portReturns (keptOf entries) (weightSum (keptOf entries))
            (alignedLen (keptOf entries))) * Real.sqrt 252)
      else none := by
  have h5 : ¬ alignedLen (keptOf entries) < 5 := by
    have := alignedLen_ge (keptOf entries) h (keptOf_closes entries)
    omega
  have hne : ¬ (keptOf entries).isEmpty = true := by
    simpa [List.isEmpty_iff] using h
  simp only [riskMetrics, if_neg hne, if_neg h5]
  split <;> rfl

theorem riskMetrics_div_none (entries : List Entry) (cfg : Config)
    (h : keptOf entries ≠ []) (hlen : ¬ 1 < (keptOf entries).length) :
    (riskMetrics entries cfg).diversification_score = none := by
  have h5 : ¬ alignedLen (keptOf entries) < 5 := by
    have := alignedLen_ge (keptOf entries) h (keptOf_closes entries)
    omega
  have hne : ¬ (keptOf entries).isEmpty = true := by
    simpa [List.isEmpty_iff] using h
  simp only [riskMetrics, if_neg hne, if_neg h5, if_neg hlen]

theorem riskMetrics_div_some (entries : List Entry) (cfg : Config)
    (hlen : 1 < (keptOf entries).length) :
    (riskMetrics entries cfg).diversification_score =
      some (divScore (keptOf entries) (alignedLen (keptOf entries))) := by
  have h : keptOf entries ≠ [] := by
    intro h0
    rw [h0] at hlen
    simp at hlen
  have h5 : ¬ alignedLen (keptOf entries) < 5 := by
    have := alignedLen_ge (keptOf entries) h (keptOf_closes entries)
    omega
  have hne : ¬ (keptOf entries).isEmpty = true := by
    simpa [List.isEmpty_iff] using h
  simp only [riskMetrics, if_neg hne, if_neg h5, if_pos hlen]

theorem riskMetrics_warnings_multi (entries : List Entry) (cfg : Config)
    (hlen : 1 < (keptOf entries).length) :
    (riskMetrics entries cfg).warnings =
      (if ((cfg.high_volatility_threshold : ℚ) : ℝ) <
          stdDev (portReturns (keptOf entries) (weightSum (keptOf entries))
            (alignedLen (keptOf entries))) * Real.sqrt 21 * 100 then
        [Warn.highVol (stdDev (portReturns (keptOf entries)
            (weightSum (keptOf entries)) (alignedLen (keptOf entries))) *
          Real.sqrt 21 * 100)]
      else []) ++
        (highCorrs (keptOf entries) (alignedLen (keptOf entries))
          cfg.high_correlation_threshold).map fun t => Warn.highCorr t.1 t.2.1 t.2.2 := by
  have h : keptOf entries ≠ [] := by
    intro h0
    rw [h0] at hlen
    simp at hlen
  have h5 : ¬ alignedLen (keptOf entries) < 5 := by
    have := alignedLen_ge (keptOf entries) h (keptOf_closes entries)
    omega
  have hne : ¬ (keptOf entries).isEmpty = true := by
    simpa [List.isEmpty_iff] using h
  simp only [riskMetrics, if_neg hne, if_neg h5, if_pos hlen]

/-- C3 (amended): the risk metrics are all null (and no error is raised)
exactly when **no** instrument has at least 6 daily closes; with at least
one qualifying instrument the monthly volatility is computed (non-null),
while the correlation-based diversification score additionally requires
at least two qualifying instruments. -/
theorem riskMetrics_null_gates (entries : List Entry) (cfg : Config) :
    (keptOf entries = [] → riskMetrics entries cfg = ⟨none, none, none, []⟩)
    ∧ ((riskMetrics entries cfg).volatility_monthly.isSome = true ↔
        keptOf entries ≠ [])
    ∧ ((riskMetrics entries cfg).diversification_score.isSome = true ↔
        2 ≤ (keptOf entries).length) := by
  refine ⟨riskMetrics_empty entries cfg, ?_, ?_⟩
  · by_cases h : keptOf entries = []
    · rw [riskMetrics_empty entries cfg h]
      simp [h]
    · rw [riskMetrics_vol entries cfg h]
      simp [h]
  · by_cases h : keptOf entries = []
    · rw [riskMetrics_empty entries cfg h, h]
      simp
    · by_cases hlen : 1 < (keptOf entries).length
      · rw [riskMetrics_div_some entries cfg hlen]
        simp
        omega
      · rw [riskMetrics_div_none entries cfg h hlen]
        simp
        omega

/-- C3 counterexample: a single instrument with 6 closes (fewer than the
2 instruments the claim requires) already produces a non-null monthly
volatility, so the computation does not return all nulls. -/
theorem riskMetrics_one_instrument_not_null :
    (riskMetrics [entrySix] cfg0).volatility_monthly.isSome = true := rfl

/-- C3 witness: the amended gates instantiated on the one-instrument
input — volatility non-null, diversification score null. -/
theorem riskMetrics_null_gates_witness :
    ((riskMetrics [entrySix] cfg0).volatility_monthly.isSome = true ↔
      keptOf [entrySix] ≠ [])
    ∧ ((riskMetrics [entrySix] cfg0).diversification_score.isSome = true ↔
      2 ≤ (keptOf [entrySix]).length) :=
  ⟨(riskMetrics_null_gates [entrySix] cfg0).2.1,
   (riskMetrics_null_gates [entrySix] cfg0).2.2⟩

/-- C5: whenever at least one instrument survives the history gate, the
Sharpe ratio is null exactly when the portfolio daily-return standard
deviation is zero, and with a positive standard deviation it equals
`(mean(dailyReturns) − riskFreeRateAnnual/252) / stddev(dailyReturns) ×
sqrt(252)` — never a fabricated number. -/
theorem sharpe_guard (entries : List Entry) (cfg : Config)
    (h : keptOf entries ≠ []) :
    ((riskMetrics entries cfg).sharpe = none ↔
      stdDev (portReturns (keptOf entries) (weightSum (keptOf entries))
        (alignedLen (keptOf entries))) = 0)
    ∧ (0 < stdDev (portReturns (keptOf entries) (weightSum (keptOf entries))
          (alignedLen (keptOf entries))) →
        (riskMetrics entries cfg).sharpe =
          some (((mean (portReturns (keptOf entries) (weightSum (keptOf entries))
                (alignedLen (keptOf entries))) - cfg.risk_free_rate / 252 : ℚ) : ℝ) /
            stdDev (portReturns (keptOf entries) (weightSum (keptOf entries))
              (alignedLen (keptOf entries))) * Real.sqrt 252)) := by
  rw [riskMetrics_sharpe entries cfg h]
  have hnonneg : 0 ≤ stdDev (portReturns (keptOf entries) (weightSum (keptOf entries))
      (alignedLen (keptOf entries))) := Real.sqrt_nonneg _
  constructor
  · constructor
    · intro hnone
      by_contra hne
      have hpos : 0 < stdDev (portReturns (keptOf entries) (weightSum (keptOf entries))
          (alignedLen (keptOf entries))) := lt_of_le_of_ne hnonneg (Ne.symm hne)
      rw [if_pos hpos] at hnone
      exact Option.noConfusion hnone
    · intro h0
      rw [if_neg]
      rw [h0]
      exact lt_irrefl 0
  · intro hpos
    rw [if_pos hpos]

/-- C5 witness: on the single alternating-price instrument the return
variance is positive, so the Sharpe ratio takes the guarded formula. -/
theorem sharpe_guard_witness :
    (riskMetrics [entrySix] cfg0).sharpe =
      some (((mean (portReturns (keptOf [entrySix]) (weightSum (keptOf [entrySix]))
            (alignedLen (keptOf [entrySix]))) - cfg0.risk_free_rate / 252 : ℚ) : ℝ) /
        stdDev (portReturns (keptOf [entrySix]) (weightSum (keptOf [entrySix]))
          (alignedLen (keptOf [entrySix]))) * Real.sqrt 252) := by
  have hne : keptOf [entrySix] ≠ [] := by
    simp [keptOf, entrySix]
  apply (sharpe_guard [entrySix] cfg0 hne).2
  unfold stdDev
  apply Real.sqrt_pos.mpr
  have hvar : 0 < sampleVar (portReturns (keptOf [entrySix])
      (weightSum (keptOf [entrySix])) (alignedLen (keptOf [entrySix]))) := by
    norm_num [sampleVar, mean, portReturns, keptOf, entrySix, weightSum, pctChange,
      alignedLen, List.range_succ]
  exact_mod_cast hvar

/-- C8 counterexample: a refresh whose portfolio `weekly_return_pct` is
−10, strictly below the default threshold −4, yet the metrics' warnings
list is empty — the code never appends a portfolio-level weekly-loss
warning. -/
theorem weeklyLoss_no_warning_appended :
    (refresh [holdingLoss] 35 (fun _ => []) cfg0).weekly_return_pct <
      cfg0.weekly_loss_threshold
    ∧ (refresh [holdingLoss] 35 (fun _ => []) cfg0).risk.warnings = [] := by
  constructor
  · show (refreshValuation [holdingLoss] 35).weekly_return_pct <
      cfg0.weekly_loss_threshold
    norm_num [refreshValuation, calculateMetrics, totalValueTry, prevTotalValue,
      valueAsset, buildAsset, Asset.is_valid, holdingLoss, prevValueTry, cfg0]
    simp only [String.reduceEq, or_self, if_false]
    norm_num
  · show (riskMetrics (riskEntries [holdingLoss] 35 (fun _ => [])) cfg0).warnings = []
    have hk : keptOf (riskEntries [holdingLoss] 35 (fun _ => [])) = [] := by
      unfold keptOf
      rw [List.filter_eq_nil_iff]
      intro e he
      rw [riskEntries, List.mem_map] at he
      obtain ⟨a, -, rfl⟩ := he
      simp
    rw [riskMetrics_empty _ _ hk]

/-- C8 (amended): the weekly-loss threshold is advisory — changing it
leaves every numeric output of a refresh (assets, totals, risk metrics,
warnings) unchanged — and the per-asset check is what the code actually
performs: a valid asset's recommendation contains the sell advice exactly
when its own `weekly_return ≤ weekly_loss_threshold` (a non-strict
comparison, on the asset, into the recommendation field — not a warning
keyed on the portfolio-level return). -/
theorem weeklyLossThreshold_advisory (holdings : List Holding) (rate : ℚ)
    (hist : String → List ℚ) (cfg : Config) (t : ℚ) :
    refresh holdings rate hist { cfg with weekly_loss_threshold := t } =
      refresh holdings rate hist cfg
    ∧ ∀ a : Asset, a.is_valid = true →
        (Advice.sellThink ∈ recsFor cfg a ↔
          a.weekly_return ≤ cfg.weekly_loss_threshold) := by
  constructor
  · rfl
  · intro a ha
    unfold recsFor
    rw [if_pos ha]
    constructor
    · intro hmem
      by_contra hnot
      rw [if_neg hnot] at hmem
      rcases List.mem_append.mp hmem with hm | hm
      · split at hm <;> simp at hm
      · split at hm
        · split at hm <;> simp at hm
        · simp at hm
    · intro hle
      rw [if_pos hle]
      exact List.mem_append.mpr (Or.inl (List.mem_cons_self _ _))

/-- C8 witness: the advisory statement instantiated on a valid asset with
weekly return −10 and the default threshold −4. -/
theorem weeklyLossThreshold_advisory_witness :
    Advice.sellThink ∈ recsFor cfg0 (valueAsset 35 (buildAsset holdingLoss)) := by
  have hvalid : (valueAsset 35 (buildAsset holdingLoss)).is_valid = true := by
    rw [valueAsset_is_valid]
    norm_num [buildAsset, holdingLoss, Asset.is_valid]
  apply ((weeklyLossThreshold_advisory [] 0 (fun _ => []) cfg0 0).2
    (valueAsset 35 (buildAsset holdingLoss)) hvalid).mpr
  show (valueAsset 35 (buildAsset holdingLoss)).weekly_return ≤
    cfg0.weekly_loss_threshold
  norm_num [valueAsset, buildAsset, holdingLoss, Asset.is_valid, cfg0]

theorem isEmpty_map {α β : Type} (f : α → β) (l : List α) :
    (l.map f).isEmpty = l.isEmpty := by
  cases l <;> rfl

theorem keptOf_scaleW (c : ℚ) (entries : List Entry) :
    keptOf (entries.map (scaleW c)) = (keptOf entries).map (scaleW c) := by
  unfold keptOf
  rw [List.filter_map]
  congr 1

theorem alignedLen_map_scaleW (c : ℚ) :
    ∀ kept : List Entry, alignedLen (kept.map (scaleW c)) = alignedLen kept
  | [] => rfl
  | [_] => rfl
  | e :: f :: es => by
    have ih := alignedLen_map_scaleW c (f :: es)
    simp only [List.map_cons] at ih ⊢
    simp only [alignedLen, ih]
    rfl

theorem weightSum_map_scaleW (c : ℚ) (kept : List Entry) :
    weightSum (kept.map (scaleW c)) = c * weightSum kept := by
  unfold weightSum
  rw [List.map_map]
  have : (Entry.weight ∘ scaleW c) = fun e => c * e.weight := rfl
  rw [this, List.sum_map_mul_left]

theorem portReturns_map_scaleW (c : ℚ) (hc : c ≠ 0) (kept : List Entry)
    (wsum : ℚ) (m : Nat) :
    portReturns (kept.map (scaleW c)) (c * wsum) m = portReturns kept wsum m := by
  unfold portReturns
  apply List.map_congr_left
  intro t _
  rw [List.map_map]
  apply congrArg
  apply List.map_congr_left
  intro e _
  show c * e.weight / (c * wsum) * _ = e.weight / wsum * _
  rw [mul_div_mul_left _ _ hc]
  rfl

theorem colOf_map_scaleW (c : ℚ) (kept : List Entry) (m i : Nat) :
    colOf (kept.map (scaleW c)) m i = colOf kept m i := by
  unfold colOf
  rcases Nat.lt_or_ge i kept.length with h | h
  · rw [List.getD_eq_getElem _ _ (by simpa using h), List.getD_eq_getElem _ _ h,
      List.getElem_map]
    rfl
  · rw [List.getD_eq_default _ _ (by simpa using h), List.getD_eq_default _ _ h]

theorem codeOf_map_scaleW (c : ℚ) (kept : List Entry) (i : Nat) :
    codeOf (kept.map (scaleW c)) i = codeOf kept i := by
  unfold codeOf
  rcases Nat.lt_or_ge i kept.length with h | h
  · rw [List.getD_eq_getElem _ _ (by simpa using h), List.getD_eq_getElem _ _ h,
      List.getElem_map]
    rfl
  · rw [List.getD_eq_default _ _ (by simpa using h), List.getD_eq_default _ _ h]

theorem highCorrs_map_scaleW (c : ℚ) (kept : List Entry) (m : Nat) (τ : ℚ) :
    highCorrs (kept.map (scaleW c)) m τ = highCorrs kept m τ := by
  unfold highCorrs
  simp only [List.length_map, colOf_map_scaleW, codeOf_map_scaleW]

theorem pairCorrs_map_scaleW (c : ℚ) (kept : List Entry) (m : Nat) :
    pairCorrs (kept.map (scaleW c)) m = pairCorrs kept m := by
  unfold pairCorrs
  simp only [List.length_map, colOf_map_scaleW]

theorem divScore_map_scaleW (c : ℚ) (kept : List Entry) (m : Nat) :
    divScore (kept.map (scaleW c)) m = divScore kept m := by
  unfold divScore
  rw [pairCorrs_map_scaleW]

/-- C10: the weight vector the risk computation applies is the valid
assets' weights **restricted to the instruments with more than 5 closes**
and renormalised to sum to exactly 1; the reported volatility describes
that renormalised sub-portfolio, and the whole risk output is invariant
under a uniform positive scaling of the input weights. -/
theorem risk_weights_renormalized (entries : List Entry) (cfg : Config) (c : ℚ)
    (hw : weightSum (keptOf entries) ≠ 0) (hc : 0 < c) :
    ((keptOf entries).map fun e => e.weight / weightSum (keptOf entries)).sum = 1
    ∧ (keptOf entries ≠ [] →
        (riskMetrics entries cfg).volatility_monthly =
          some (stdDev (portReturns (keptOf entries) (weightSum (keptOf entries))
            (alignedLen (keptOf entries))) * Real.sqrt 21 * 100))
    ∧ riskMetrics (entries.map (scaleW c)) cfg = riskMetrics entries cfg := by
  refine ⟨?_, riskMetrics_vol entries cfg, ?_⟩
  · simp only [div_eq_mul_inv]
    rw [List.sum_map_mul_right]
    exact mul_inv_cancel₀ hw
  · simp only [riskMetrics, keptOf_scaleW, isEmpty_map, alignedLen_map_scaleW,
      weightSum_map_scaleW, portReturns_map_scaleW c hc.ne' , List.length_map,
      highCorrs_map_scaleW, divScore_map_scaleW]

/-- C10 witness: the renormalised weights of the two kept instruments
(weights 1 and 1) sum to exactly 1. -/
theorem risk_weights_renormalized_witness :
    ((keptOf [entrySix, entrySixB]).map fun e =>
      e.weight / weightSum (keptOf [entrySix, entrySixB])).sum = 1 := by
  apply (risk_weights_renormalized [entrySix, entrySixB] cfg0 2 ?_ (by norm_num)).1
  norm_num [weightSum, keptOf, entrySix, entrySixB]

theorem countP_flatMap_range {α : Type} (p : α → Bool) (f : Nat → List α) :
    ∀ n : Nat, ((List.range n).flatMap f).countP p =
      ∑ i in Finset.range n, (f i).countP p := by
  intro n
  induction n with
  | zero => simp
  | succ n ih =>
    rw [List.range_succ, List.flatMap_append, List.countP_append, ih,
      Finset.sum_range_succ]
    simp

theorem codeOf_inj (kept : List Entry) (hnd : (kept.map Entry.code).Nodup)
    {a b : Nat} (ha : a < kept.length) (hb : b < kept.length)
    (h : codeOf kept a = codeOf kept b) : a = b := by
  have ha' : a < (kept.map Entry.code).length := by simpa using ha
  have hb' : b < (kept.map Entry.code).length := by simpa using hb
  have hmm : (kept.map Entry.code)[a] = (kept.map Entry.code)[b] := by
    rw [List.getElem_map, List.getElem_map]
    have e1 : (kept.getD a default).code = kept[a].code := by
      rw [List.getD_eq_getElem _ _ ha]
    have e2 : (kept.getD b default).code = kept[b].code := by
      rw [List.getD_eq_getElem _ _ hb]
    unfold codeOf at h
    rw [e1, e2] at h
    exact h
  exact hnd.getElem_inj_iff.mp hmm

theorem highCorrs_countP (kept : List Entry) (m : Nat) (τ : ℚ)
    (hnd : (kept.map Entry.code).Nodup) (i j : Nat) (hij : i < j)
    (hj : j < kept.length) :
    ((highCorrs kept m τ).countP fun t =>
      decide ((t.1 = codeOf kept i ∧ t.2.1 = codeOf kept j) ∨
        (t.1 = codeOf kept j ∧ t.2.1 = codeOf kept i))) =
    if ((τ : ℚ) : ℝ) < |pearson (colOf kept m i) (colOf kept m j)| then 1 else 0 := by
  have hi : i < kept.length := lt_trans hij hj
  unfold highCorrs
  rw [countP_flatMap_range]
  have hcell : ∀ i' j', i' < kept.length → j' < kept.length →
      ((if i' < j' then
          if ((τ : ℚ) : ℝ) < |pearson (colOf kept m i') (colOf kept m j')| then
            [(codeOf kept i', codeOf kept j',
              pearson (colOf kept m i') (colOf kept m j'))]
          else []
        else []).countP fun t =>
        decide ((t.1 = codeOf kept i ∧ t.2.1 = codeOf kept j) ∨
          (t.1 = codeOf kept j ∧ t.2.1 = codeOf kept i))) =
      if i' = i ∧ j' = j then
        (if ((τ : ℚ) : ℝ) < |pearson (colOf kept m i) (colOf kept m j)| then 1 else 0)
      else 0 := by
    intro i' j' hi' hj'
    by_cases hord : i' < j'
    · rw [if_pos hord]
      by_cases hmatch : i' = i ∧ j' = j
      · obtain ⟨rfl, rfl⟩ := hmatch
        by_cases hc : ((τ : ℚ) : ℝ) <
            |pearson (colOf kept m i') (colOf kept m j')|
        · rw [if_pos hc, if_pos hc, if_pos ⟨rfl, rfl⟩]
          simp [List.countP_cons]
        · rw [if_neg hc, if_neg hc, if_pos ⟨rfl, rfl⟩]
          rfl
      · rw [if_neg hmatch]
        by_cases hc : ((τ : ℚ) : ℝ) <
            |pearson (colOf kept m i') (colOf kept m j')|
        · rw [if_pos hc]
          have hfalse : ¬ ((codeOf kept i' = codeOf kept i ∧
                codeOf kept j' = codeOf kept j) ∨
              (codeOf kept i' = codeOf kept j ∧
                codeOf kept j' = codeOf kept i)) := by
            rintro (⟨e1, e2⟩ | ⟨e1, e2⟩)
            · exact hmatch ⟨codeOf_inj kept hnd hi' hi e1,
                codeOf_inj kept hnd hj' hj e2⟩
            · have hii := codeOf_inj kept hnd hi' hj e1
              have hjj := codeOf_inj kept hnd hj' hi e2
              omega
          simp [List.countP_cons, hfalse]
        · rw [if_neg hc]
          rfl
    · rw [if_neg hord]
      have hmatch : ¬ (i' = i ∧ j' = j) := by
        rintro ⟨rfl, rfl⟩
        exact hord hij
      rw [if_neg hmatch]
      rfl
  have houter : ∀ i' ∈ Finset.range kept.length,
      (((List.range kept.length).flatMap fun j' =>
        if i' < j' then
          if ((τ : ℚ) : ℝ) < |pearson (colOf kept m i') (colOf kept m j')| then
            [(codeOf kept i', codeOf kept j',
              pearson (colOf kept m i') (colOf kept m j'))]
          else []
        else []).countP fun t =>
        decide ((t.1 = codeOf kept i ∧ t.2.1 = codeOf kept j) ∨
          (t.1 = codeOf kept j ∧ t.2.1 = codeOf kept i))) =
      if i' = i then
        (if ((τ : ℚ) : ℝ) < |pearson (colOf kept m i) (colOf kept m j)| then 1 else 0)
      else 0 := by
    intro i' hi'
    rw [countP_flatMap_range]
    have hstep : ∀ j' ∈ Finset.range kept.length,
        ((if i' < j' then
            if ((τ : ℚ) : ℝ) < |pearson (colOf kept m i') (colOf kept m j')| then
              [(codeOf kept i', codeOf kept j',
                pearson (colOf kept m i') (colOf kept m j'))]
            else []
          else []).countP fun t =>
          decide ((t.1 = codeOf kept i ∧ t.2.1 = codeOf kept j) ∨
            (t.1 = codeOf kept j ∧ t.2.1 = codeOf kept i))) =
        if i' = i ∧ j' = j then
          (if ((τ : ℚ) : ℝ) < |pearson (colOf kept m i) (colOf kept m j)| then 1
           else 0)
        else 0 :=
      fun j' hj' => hcell i' j' (Finset.mem_range.mp hi') (Finset.mem_range.mp hj')
    rw [Finset.sum_congr rfl hstep]
    by_cases hii : i' = i
    · subst hii
      simp only [true_and]
      rw [Finset.sum_ite_eq' (Finset.range kept.length) j fun _ =>
        if ((τ : ℚ) : ℝ) < |pearson (colOf kept m i') (colOf kept m j)| then 1 else 0]
      rw [if_pos (Finset.mem_range.mpr hj)]
      simp
    · have : ∀ j' ∈ Finset.range kept.length,
          (if i' = i ∧ j' = j then
            (if ((τ : ℚ) : ℝ) < |pearson (colOf kept m i) (colOf kept m j)| then 1
             else 0)
          else 0) = 0 := by
        intro j' _
        rw [if_neg]
        rintro ⟨h1, -⟩
        exact hii h1
      rw [Finset.sum_congr rfl this, Finset.sum_const, smul_zero, if_neg hii]
  rw [Finset.sum_congr rfl houter]
  rw [Finset.sum_ite_eq' (Finset.range kept.length) i fun _ =>
    if ((τ : ℚ) : ℝ) < |pearson (colOf kept m i) (colOf kept m j)| then 1 else 0]
  rw [if_pos (Finset.mem_range.mpr hi)]

/-- C7: for any two aligned-matrix column positions `i < j` with distinct
instrument codes, the warnings of a risk refresh contain **exactly one**
warning naming that unordered pair of codes (with the pair's Pearson
correlation as payload) when `|corr| > highCorrelationThreshold`, and
**none** when `|corr|` is at or below the threshold. -/
theorem corr_warning_once (entries : List Entry) (cfg : Config) (i j : Nat)
    (hnd : ((keptOf entries).map Entry.code).Nodup)
    (hij : i < j) (hj : j < (keptOf entries).length) :
    (((cfg.high_correlation_threshold : ℚ) : ℝ) <
        |pearson (colOf (keptOf entries) (alignedLen (keptOf entries)) i)
          (colOf (keptOf entries) (alignedLen (keptOf entries)) j)| →
      ((riskMetrics entries cfg).warnings.countP fun w =>
        w.namesPair (codeOf (keptOf entries) i) (codeOf (keptOf entries) j)) = 1)
    ∧ (¬ ((cfg.high_correlation_threshold : ℚ) : ℝ) <
        |pearson (colOf (keptOf entries) (alignedLen (keptOf entries)) i)
          (colOf (keptOf entries) (alignedLen (keptOf entries)) j)| →
      ((riskMetrics entries cfg).warnings.countP fun w =>
        w.namesPair (codeOf (keptOf entries) i) (codeOf (keptOf entries) j)) = 0) := by
  have hlen : 1 < (keptOf entries).length := by omega
  have hw := riskMetrics_warnings_multi entries cfg hlen
  have hkey : ((riskMetrics entries cfg).warnings.countP fun w =>
      w.namesPair (codeOf (keptOf entries) i) (codeOf (keptOf entries) j)) =
      if ((cfg.high_correlation_threshold : ℚ) : ℝ) <
          |pearson (colOf (keptOf entries) (alignedLen (keptOf entries)) i)
            (colOf (keptOf entries) (alignedLen (keptOf entries)) j)| then 1
      else 0 := by
    rw [hw, List.countP_append]
    have h1 : ((if ((cfg.high_volatility_threshold : ℚ) : ℝ) <
        stdDev (portReturns (keptOf entries) (weightSum (keptOf entries))
          (alignedLen (keptOf entries))) * Real.sqrt 21 * 100 then
          [Warn.highVol (stdDev (portReturns (keptOf entries)
              (weightSum (keptOf entries)) (alignedLen (keptOf entries))) *
            Real.sqrt 21 * 100)]
        else []).countP fun w =>
        w.namesPair (codeOf (keptOf entries) i) (codeOf (keptOf entries) j)) = 0 := by
      split <;> simp [List.countP_cons, Warn.namesPair]
    have h2 : (((highCorrs (keptOf entries) (alignedLen (keptOf entries))
        cfg.high_correlation_threshold).map fun t =>
          Warn.highCorr t.1 t.2.1 t.2.2).countP fun w =>
        w.namesPair (codeOf (keptOf entries) i) (codeOf (keptOf entries) j)) =
        if ((cfg.high_correlation_threshold : ℚ) : ℝ) <
            |pearson (colOf (keptOf entries) (alignedLen (keptOf entries)) i)
              (colOf (keptOf entries) (alignedLen (keptOf entries)) j)| then 1
        else 0 := by
      rw [List.countP_map]
      exact highCorrs_countP (keptOf entries) (alignedLen (keptOf entries))
        cfg.high_correlation_threshold hnd i j hij hj
    rw [h1, h2, zero_add]
  exact ⟨fun hc => by rw [hkey, if_pos hc], fun hc => by rw [hkey, if_neg hc]⟩

theorem zip_self_map (g : ℚ × ℚ → ℚ) :
    ∀ x : List ℚ, (x.zip x).map g = x.map fun a => g (a, a)
  | [] => rfl
  | a :: t => by
    simp only [List.zip_cons_cons, List.map_cons]
    rw [zip_self_map g t]

theorem sampleCov_self (x : List ℚ) : sampleCov x x = sampleVar x := by
  unfold sampleCov sampleVar
  rw [zip_self_map]
  congr 1
  apply congrArg
  apply List.map_congr_left
  intro a _
  ring

theorem pearson_self (x : List ℚ) (h : 0 < sampleVar x) : pearson x x = 1 := by
  unfold pearson stdDev
  rw [sampleCov_self]
  have hnn : (0 : ℝ) ≤ ((sampleVar x : ℚ) : ℝ) := by exact_mod_cast h.le
  rw [Real.mul_self_sqrt hnn]
  apply div_self
  exact_mod_cast h.ne'

/-- C7 witness: two perfectly correlated instruments (correlation 1,
above the default threshold 0.7) produce exactly one warning naming the
pair. -/
theorem corr_warning_once_witness :
    ((riskMetrics [entrySix, entrySixB] cfg0).warnings.countP fun w =>
      w.namesPair (codeOf (keptOf [entrySix, entrySixB]) 0)
        (codeOf (keptOf [entrySix, entrySixB]) 1)) = 1 := by
  have hk : keptOf [entrySix, entrySixB] = [entrySix, entrySixB] := by
    simp [keptOf, entrySix, entrySixB]
  have hnd : ((keptOf [entrySix, entrySixB]).map Entry.code).Nodup := by
    rw [hk]
    simp [entrySix, entrySixB]
  have hj : 1 < (keptOf [entrySix, entrySixB]).length := by
    rw [hk]
    norm_num
  apply (corr_warning_once [entrySix, entrySixB] cfg0 0 1 hnd (by norm_num) hj).1
  have hcol0 : colOf (keptOf [entrySix, entrySixB])
      (alignedLen (keptOf [entrySix, entrySixB])) 0 =
      [1, -(1 / 2), 1, -(1 / 2), 1] := by
    rw [hk]
    norm_num [colOf, pctChange, entrySix, entrySixB, alignedLen,
      List.take_succ_cons]
  have hcol1 : colOf (keptOf [entrySix, entrySixB])
      (alignedLen (keptOf [entrySix, entrySixB])) 1 =
      [1, -(1 / 2), 1, -(1 / 2), 1] := by
    rw [hk]
    norm_num [colOf, pctChange, entrySix, entrySixB, alignedLen,
      List.take_succ_cons]
  rw [hcol0, hcol1]
  have hvar : (0 : ℚ) < sampleVar [1, -(1 / 2), 1, -(1 / 2), 1] := by
    norm_num [sampleVar, mean]
  rw [pearson_self _ hvar, abs_one]
  have hτ : cfg0.high_correlation_threshold = 7 / 10 := rfl
  rw [hτ]
  norm_num

end PortfolioDash
